import Mathlib

/-!
Verification of the request-dispatch core of the claude-code-proxy server.

This file gives a shallow embedding, in Lean 4, of the parts of the source
relevant to the checked properties:

* `RateLimiter` — `src/rate-limiter.mjs` (`getWindow`, `check`, `record`);
* `FairQueue` — `src/fair-queue.mjs` (per-source priority queues, round-robin
  dispatch, leases, the leak sweep), together with a deterministic scenario
  driver that replays acquire/release event sequences and logs every grant;
* `Server` — the pieces of `src/server.mjs` under scrutiny: the
  `/v1/chat/completions` routing decision, `extractPrompt` truncation, and the
  streaming close handler (quick-fail retry, error recording, refusal
  detection, terminating `data: [DONE]` accounting).

JavaScript numbers that only ever hold non-negative integers are modelled as
`Nat` (all the counters, lengths and timestamps involved satisfy this);
process exit codes are `Int`.  JS `Map`/plain-object dictionaries are
modelled as association lists with `alookup`/`aset`/`aerase` mirroring
`get`/`set`/`delete`.  Fallible JS expressions (property access that throws)
are modelled with `Option`.
-/

/-- Association-list lookup, modelling `map.get(k)` / `obj[k]`. -/
def alookup [DecidableEq κ] (k : κ) : List (κ × α) → Option α
  | [] => none
  | (k2, v) :: rest => if k2 = k then some v else alookup k rest

/-- Association-list update, modelling `map.set(k, v)` / spread update:
replaces the first binding of `k`, or appends a new one. -/
def aset [DecidableEq κ] (k : κ) (v : α) : List (κ × α) → List (κ × α)
  | [] => [(k, v)]
  | (k2, v2) :: rest => if k2 = k then (k, v) :: rest else (k2, v2) :: aset k v rest

/-- Association-list deletion, modelling `map.delete(k)` (keys are unique in
every map the source builds, so removing all bindings of `k` agrees). -/
def aerase [DecidableEq κ] (k : κ) (l : List (κ × α)) : List (κ × α) :=
  l.filter (fun p => ¬ p.1 = k)

namespace RateLimiter

/-- One sliding-window event `{ ts, tok }` as pushed by `record`. -/
structure RLEntry where
  ts : Nat
  tok : Nat
deriving DecidableEq

/-- Per-model limits `{ requestsPerMin, tokensPerMin }`. -/
structure ModelLimits where
  requestsPerMin : Nat
  tokensPerMin : Nat
deriving DecidableEq

/-- The `limits` option: a JS object keyed by model name. -/
abbrev Limits := List (String × ModelLimits)

/-- `const WINDOW_MS = 60_000`. -/
def WINDOW_MS : Nat := 60000

/-- The in-memory `windows` object: model name to its recorded events. -/
abbrev Windows := List (String × List RLEntry)

/-- `limits[model] || limits.sonnet`.  `none` when both are absent (the JS
code would then throw on the first property access inside `check`). -/
def modelLimitsFor (limits : Limits) (model : String) : Option ModelLimits :=
  (alookup model limits).orElse (fun _ => alookup "sonnet" limits)

/-- The value `getWindow` returns: live requests plus their token sum. -/
structure Window where
  requests : List RLEntry
  tokens : Nat
deriving DecidableEq

/-- `getWindow(model)`: filter the stored events to those younger than the
60-second window and sum their tokens. -/
def getWindow (windows : Windows) (model : String) (now : Nat) : Window :=
  let existing := (alookup model windows).getD []
  let valid := existing.filter (fun r => now - r.ts < WINDOW_MS)
  { requests := valid, tokens := valid.foldl (fun sum r => sum + r.tok) 0 }

/-- The frozen result object of `check`. -/
structure CheckResult where
  ok : Bool
  waitMs : Nat
  reason : Option String
deriving DecidableEq

/-- The body of `check` once the per-model limits are resolved.  Returns
`none` exactly where the JS code would throw: reading `win.requests[0].ts`
on an empty array in the requests-exceeded branch (reachable only when
`requestsPerMin` is 0). -/
def checkCore (ml : ModelLimits) (win : Window) (now : Nat) (estTokens : Nat) :
    Option CheckResult :=
  if ml.requestsPerMin ≤ win.requests.length then
    match win.requests.head? with
    | none => none
    | some r0 =>
      some { ok := false, waitMs := max (WINDOW_MS - (now - r0.ts)) 1000,
             reason := some (toString win.requests.length ++ "/" ++
               toString ml.requestsPerMin ++ " req/min") }
  else if ml.tokensPerMin < win.tokens + estTokens then
    if win.requests.length = 0 then
      some { ok := true, waitMs := 0, reason := none }
    else
      let waitMs := match win.requests.head? with
        | some r0 => WINDOW_MS - (now - r0.ts)
        | none => 5000
      some { ok := false, waitMs := max waitMs 1000,
             reason := some ("~" ++ toString win.tokens ++ "/" ++
               toString ml.tokensPerMin ++ " tok/min") }
  else
    some { ok := true, waitMs := 0, reason := none }

/-- `check(model, estTokens)`. -/
def check (limits : Limits) (windows : Windows) (now : Nat) (model : String)
    (estTokens : Nat) : Option CheckResult :=
  (modelLimitsFor limits model).bind
    (fun ml => checkCore ml (getWindow windows model now) now estTokens)

/-- `record(model, estTokens)`: append `(now, estTokens)` to the model's
(lazily trimmed) window, stored under the given model name. -/
def record (windows : Windows) (model : String) (now : Nat) (estTokens : Nat) :
    Windows :=
  let win := getWindow windows model now
  aset model (win.requests ++ [{ ts := now, tok := estTokens }]) windows

/-- The deployed `RATE_LIMITS` table of `src/server.mjs`. -/
def RATE_LIMITS : Limits :=
  [("sonnet", { requestsPerMin := 57, tokensPerMin := 190000 }),
   ("opus", { requestsPerMin := 28, tokensPerMin := 57000 }),
   ("haiku", { requestsPerMin := 95, tokensPerMin := 380000 })]

end RateLimiter

namespace FairQueue

/-- `const PRIORITY_ORDER = { high: 0, normal: 1, low: 2 }`. -/
def PRIORITY_ORDER : List (String × Nat) := [("high", 0), ("normal", 1), ("low", 2)]

/-- `PRIORITY_ORDER[p] ?? 1` — the comparator key used by `acquire`. -/
def priorityRank (p : String) : Nat := (alookup p PRIORITY_ORDER).getD 1

/-- A queued entry (the resolver, reject and timer fields of the JS entry are
the promise machinery and carry no queue-ordering state). -/
structure QEntry where
  rid : Nat
  priority : String
  sourceId : String
  enqueuedAt : Nat
deriving DecidableEq

/-- A recorded lease `{ sourceId, acquiredAt }`. -/
structure Lease where
  sourceId : String
  acquiredAt : Nat
deriving DecidableEq

/-- The options of `createFairQueue` that the modelled operations read
(`queueTimeoutMs` only drives the timer machinery, which the deterministic
model does not replay). -/
structure Config where
  maxConcurrent : Nat := 10
  maxPerSource : Nat := 20
  maxTotal : Nat := 100
  maxLeaseMs : Nat := 600000
  maxConcurrentPerSource : List (String × Nat) := []
  defaultMaxConcurrentPerSource : Nat := 0
deriving DecidableEq

/-- The closure-captured mutable state of a fair queue (metrics omitted:
they are write-only counters that never feed back into control flow). -/
structure QState where
  activeCount : Nat := 0
  totalQueued : Nat := 0
  sourceQueues : List (String × List QEntry) := []
  sourceOrder : List String := []
  rrIndex : Nat := 0
  nextLeaseId : Nat := 0
  activeLeases : List (Nat × Lease) := []
  activePerSource : List (String × Nat) := []
deriving DecidableEq

/-- `getSourceConcurrencyLimit`. -/
def getSourceConcurrencyLimit (cfg : Config) (sourceId : String) : Nat :=
  match alookup sourceId cfg.maxConcurrentPerSource with
  | some v => v
  | none => cfg.defaultMaxConcurrentPerSource

/-- `getSourceActiveCount`. -/
def getSourceActiveCount (s : QState) (sourceId : String) : Nat :=
  (alookup sourceId s.activePerSource).getD 0

/-- `isSourceAtLimit` (`limit <= 0` means no limit; limits are naturals
here, so that is `limit = 0`). -/
def isSourceAtLimit (cfg : Config) (s : QState) (sourceId : String) : Bool :=
  let limit := getSourceConcurrencyLimit cfg sourceId
  if limit = 0 then false else decide (limit ≤ getSourceActiveCount s sourceId)

/-- `incrementSourceActive`. -/
def incrementSourceActive (s : QState) (sourceId : String) : QState :=
  { s with activePerSource := aset sourceId (getSourceActiveCount s sourceId + 1) s.activePerSource }

/-- `decrementSourceActive` (deletes the key when the count drops to 0). -/
def decrementSourceActive (s : QState) (sourceId : String) : QState :=
  let current := getSourceActiveCount s sourceId
  if current ≤ 1 then
    { s with activePerSource := aerase sourceId s.activePerSource }
  else
    { s with activePerSource := aset sourceId (current - 1) s.activePerSource }

/-- The state of one release closure: its captured `leaseId`, `sourceId` and
`released` flag. -/
structure Handle where
  leaseId : Nat
  sourceId : String
  released : Bool
deriving DecidableEq

/-- `grantSlot(sourceId)`: bump the active counters, record the lease, and
return the release closure's initial state. -/
def grantSlot (s : QState) (sourceId : String) (now : Nat) : Handle × QState :=
  let s1 := incrementSourceActive { s with activeCount := s.activeCount + 1 } sourceId
  let leaseId := s1.nextLeaseId
  let s2 := { s1 with
    nextLeaseId := leaseId + 1,
    activeLeases := aset leaseId { sourceId := sourceId, acquiredAt := now } s1.activeLeases }
  ({ leaseId := leaseId, sourceId := sourceId, released := false }, s2)

/-- The non-empty-queue filter of `dequeueNext` (`activeSources`). -/
def activeSourcesOf (s : QState) : List String :=
  s.sourceOrder.filter (fun id => 0 < ((alookup id s.sourceQueues).getD []).length)

/-- The `for (let i = 0; i < activeSources.length; i++)` scan of
`dequeueNext`: try indices `(startIdx + i) % len`, skipping sources at their
per-source cap.  `rem` counts the remaining iterations. -/
def dequeueLoop (cfg : Config) (s : QState) (activeSources : List String)
    (startIdx : Nat) : Nat → Nat → Option (QEntry × QState)
  | _, 0 => none
  | i, rem + 1 =>
    let len := activeSources.length
    let idx := (startIdx + i) % len
    let sourceId := (activeSources.get? idx).getD ""
    if isSourceAtLimit cfg s sourceId then
      dequeueLoop cfg s activeSources startIdx (i + 1) rem
    else
      let s1 := { s with rrIndex := (idx + 1) % max len 1 }
      match (alookup sourceId s1.sourceQueues).getD [] with
      | [] => none
      | entry :: rest =>
        let s2 :=
          if rest.isEmpty then
            { s1 with sourceQueues := aerase sourceId s1.sourceQueues,
                      sourceOrder := s1.sourceOrder.filter (fun id => ¬ id = sourceId) }
          else
            { s1 with sourceQueues := aset sourceId rest s1.sourceQueues }
        some ({ entry with sourceId := sourceId }, s2)

/-- `dequeueNext()`. -/
def dequeueNext (cfg : Config) (s : QState) : Option (QEntry × QState) :=
  let activeSources := activeSourcesOf s
  if activeSources.isEmpty then none
  else
    dequeueLoop cfg s activeSources (s.rrIndex % activeSources.length) 0
      activeSources.length

/-- A ghost record of one grant, for scenario traces: the request id and
source granted, the release closure handed back, and — for round-robin
analysis — which sources had non-empty queues just before this dispatch
(empty for fast-path grants: nothing was queued then). -/
structure Grant where
  rid : Nat
  sourceId : String
  handle : Handle
  nonEmptyBefore : List String
deriving DecidableEq

/-- The `while` loop of `tryDispatch`; each successful iteration decrements
`totalQueued`, so `fuel := totalQueued` makes the recursion exact. -/
def tryDispatchAux (cfg : Config) (now : Nat) : Nat → QState → QState × List Grant
  | 0, s => (s, [])
  | fuel + 1, s =>
    if s.activeCount < cfg.maxConcurrent ∧ 0 < s.totalQueued then
      match dequeueNext cfg s with
      | none => (s, [])
      | some (entry, s1) =>
        let s2 := { s1 with totalQueued := s1.totalQueued - 1 }
        let (h, s3) := grantSlot s2 entry.sourceId now
        let (s4, gs) := tryDispatchAux cfg now fuel s3
        (s4, { rid := entry.rid, sourceId := entry.sourceId, handle := h,
               nonEmptyBefore := activeSourcesOf s } :: gs)
    else (s, [])

/-- `tryDispatch()`. -/
def tryDispatch (cfg : Config) (now : Nat) (s : QState) : QState × List Grant :=
  tryDispatchAux cfg now s.totalQueued s

/-- The release closure returned by `grantSlot`: idempotent via the captured
`released` flag, decrementing the counters only while its lease is still
registered, then re-triggering dispatch. -/
def releaseFn (cfg : Config) (now : Nat) (h : Handle) (s : QState) :
    Handle × QState × List Grant :=
  if h.released then (h, s, [])
  else
    let h1 := { h with released := true }
    let s1 :=
      if (alookup h.leaseId s.activeLeases).isSome then
        decrementSourceActive
          { s with activeLeases := aerase h.leaseId s.activeLeases,
                   activeCount := s.activeCount - 1 } h.sourceId
      else s
    let (s2, gs) := tryDispatch cfg now s1
    (h1, s2, gs)

/-- Stable insertion used to model `Array.prototype.sort` with the comparator
`(a, b) => rank a - rank b`: insert after every element of rank `≤` the new
element's rank. -/
def insertByRank (e : QEntry) : List QEntry → List QEntry
  | [] => [e]
  | x :: xs =>
    if priorityRank x.priority ≤ priorityRank e.priority then x :: insertByRank e xs
    else e :: x :: xs

/-- `array.sort((a, b) => PRIORITY_ORDER[a.priority] - PRIORITY_ORDER[b.priority])`:
JS sort is stable, which this left fold of stable insertions realises. -/
def sortByPriority (l : List QEntry) : List QEntry :=
  l.foldl (fun acc e => insertByRank e acc) []

/-- The outcome of `acquire` visible to the caller: an immediately granted
slot, a pending (queued) promise, or a rejected promise. -/
inductive AcquireResult where
  | granted (h : Handle)
  | queued
  | rejected
deriving DecidableEq

/-- `acquire(sourceId, priority)`.  Also returns the grants the call caused
(the fast-path grant, or grants resolved by the trailing `tryDispatch`). -/
def acquire (cfg : Config) (now : Nat) (s : QState) (sourceId : String)
    (priority : String) (rid : Nat) : AcquireResult × QState × List Grant :=
  if s.activeCount < cfg.maxConcurrent ∧ s.totalQueued = 0 ∧
      isSourceAtLimit cfg s sourceId = false then
    let (h, s1) := grantSlot s sourceId now
    (.granted h, s1,
     [{ rid := rid, sourceId := sourceId, handle := h, nonEmptyBefore := [] }])
  else if cfg.maxTotal ≤ s.totalQueued then (.rejected, s, [])
  else
    let sourceQueue := (alookup sourceId s.sourceQueues).getD []
    if cfg.maxPerSource ≤ sourceQueue.length then (.rejected, s, [])
    else
      let entry : QEntry :=
        { rid := rid, priority := priority, sourceId := sourceId, enqueuedAt := now }
      let newQueue := sortByPriority (sourceQueue ++ [entry])
      let s1 := { s with sourceQueues := aset sourceId newQueue s.sourceQueues }
      let s2 :=
        if s1.sourceOrder.contains sourceId then s1
        else { s1 with sourceOrder := s1.sourceOrder ++ [sourceId] }
      let s3 := { s2 with totalQueued := s2.totalQueued + 1 }
      let (s4, gs) := tryDispatch cfg now s3
      (.queued, s4, gs)

/-- One force-release of the sweep's leak loop: drop the lease, decrement
the global and per-source active counts. -/
def sweepStep (st : QState) (p : Nat × Lease) : QState :=
  decrementSourceActive
    { st with activeLeases := aerase p.1 st.activeLeases,
              activeCount := st.activeCount - 1 } p.2.sourceId

/-- Phase 2 of the 5-second sweep: force-release every lease held longer
than `maxLeaseMs`, then re-trigger dispatch when anything leaked.  (Phase 1,
queue-timeout eviction, is timer machinery outside this model's scenarios.) -/
def sweepLeakedLeases (cfg : Config) (now : Nat) (s : QState) :
    QState × List Grant :=
  let expired := s.activeLeases.filter (fun p => cfg.maxLeaseMs < now - p.2.acquiredAt)
  let s1 := expired.foldl sweepStep s
  if expired.isEmpty then (s1, []) else tryDispatch cfg now s1

/-- A scenario event: a call to `acquire`, or the invocation of the release
closure that was granted to request `rid`. -/
inductive Ev where
  | acq (sourceId : String) (rid : Nat) (priority : String)
  | rel (rid : Nat)
deriving DecidableEq

/-- Scenario driver state: the queue state, the live release closures keyed
by the request id they were granted to, and the chronological grant log. -/
structure RunState where
  q : QState
  handles : List (Nat × Handle)
  log : List Grant
deriving DecidableEq

/-- Record freshly resolved grants' release closures. -/
def addHandles (hs : List (Nat × Handle)) (gs : List Grant) : List (Nat × Handle) :=
  gs.foldl (fun acc g => aset g.rid g.handle acc) hs

/-- Replay one scenario event. -/
def step (cfg : Config) (now : Nat) (rs : RunState) : Ev → RunState
  | .acq src rid prio =>
    let (_, s1, gs) := acquire cfg now rs.q src prio rid
    { q := s1, handles := addHandles rs.handles gs, log := rs.log ++ gs }
  | .rel rid =>
    match alookup rid rs.handles with
    | none => rs
    | some h =>
      let (h1, s1, gs) := releaseFn cfg now h rs.q
      { q := s1, handles := aset rid h1 (addHandles rs.handles gs),
        log := rs.log ++ gs }

/-- Replay a whole scenario from the initial (empty) queue state. -/
def runScenario (cfg : Config) (evs : List Ev) : RunState :=
  evs.foldl (step cfg 0) { q := {}, handles := [], log := [] }

end FairQueue

namespace Server

/-- The configuration the `/v1/chat/completions` routing decision reads:
`USE_CLI_AGENTS` and `TOKEN_POOL.length`. -/
structure RouteCfg where
  useCliAgents : Bool
  tokenPoolSize : Nat
deriving DecidableEq

/-- The two request paths of `handleCompletions`. -/
inductive Route where
  | apiDirect
  | cliWorker
deriving DecidableEq

/-- The routing decision of `handleCompletions`
(`if (!USE_CLI_AGENTS && TOKEN_POOL.length > 0) return handleApiDirect(...)`).
`toolCount` is the number of tool definitions the request body carries; the
source never consults it here. -/
def routeCompletions (cfg : RouteCfg) (toolCount : Nat) : Route :=
  if cfg.useCliAgents = false ∧ 0 < cfg.tokenPoolSize then .apiDirect
  else .cliWorker

/-- An incoming chat message whose `content` is a string (the
`JSON.stringify` branch for structured content only changes which string is
measured, not the truncation arithmetic). -/
structure Msg where
  role : String
  content : String
deriving DecidableEq

/-- The sentinel line `extractPrompt` prepends when history is dropped. -/
def TRUNCATION_SENTINEL : String := "[... earlier conversation history truncated ...]"

/-- The `allParts` array of `extractPrompt`: skip system/developer messages,
keep user text verbatim, prefix assistant text, drop other roles. -/
def allPartsOf (messages : List Msg) : List String :=
  messages.filterMap (fun m =>
    if m.role = "system" ∨ m.role = "developer" then none
    else if m.role = "user" then some m.content
    else if m.role = "assistant" then some ("[Previous assistant]: " ++ m.content)
    else none)

/-- The back-to-front truncation loop of `extractPrompt`: walk the parts in
reverse, keeping while the running length fits (the last message is always
kept), and on overflow prepend the sentinel and stop. -/
def keptAux (maxChars : Nat) : List String → Nat → List String → List String
  | [], _, kept => kept
  | part :: rest, totalLen, kept =>
    if maxChars < totalLen + part.length ∧ kept ≠ [] then TRUNCATION_SENTINEL :: kept
    else keptAux maxChars rest (totalLen + part.length) (part :: kept)

/-- The `kept` list `extractPrompt` builds for a given parts array. -/
def keptParts (allParts : List String) (maxChars : Nat) : List String :=
  keptAux maxChars allParts.reverse 0 []

/-- The prompt `extractPrompt` returns: `kept.join("\n\n")`. -/
def extractPromptText (messages : List Msg) (maxChars : Nat) : String :=
  String.intercalate "\n\n" (keptParts (allPartsOf messages) maxChars)

/-- `const QUICK_FAIL_MS = 5000`. -/
def QUICK_FAIL_MS : Nat := 5000

/-- The untried-healthy-worker search of the quick-fail retry
(`_workerPool.find(w => !triedRouters.has(w.name) && !limited(w.name))`);
workers are identified by name. -/
def findUntriedWorker (pool tried limited : List String) : Option String :=
  pool.find? (fun w => ¬ tried.contains w ∧ ¬ limited.contains w)

/-- `getAlternateWorker(excludeName)`: the first healthy worker other than
the excluded one. -/
def getAlternateWorker (pool limited : List String) (excludeName : String) :
    Option String :=
  (pool.filter (fun w => ¬ w = excludeName ∧ ¬ limited.contains w)).head?

/-- What one streaming attempt produced by the time its worker exited.
`chunks` are the non-empty delta texts forwarded to the client (each sets
`sentContent` and adds to `outputChars`); `resultText` is a `result` event's
text, forwarded — and setting `sentContent`, but not `outputChars` — only
when no delta text preceded it; `flushTexts` are the texts the trailing
buffer flush writes on close; `buffer` is the trailing unparsed stdout
fragment (what the refusal check reads). -/
structure AttemptOutcome where
  chunks : List String
  resultText : Option String
  code : Int
  elapsed : Nat
  flushTexts : List String
  buffer : String
deriving DecidableEq

/-- The `sentContent` flag at worker exit. -/
def sentContentOf (o : AttemptOutcome) : Bool :=
  ¬ o.chunks.isEmpty ∨ o.resultText.isSome

/-- The `outputChars` counter at worker exit (only delta-path writes add to
it). -/
def outputCharsOf (o : AttemptOutcome) : Nat :=
  (o.chunks.map String.length).foldl (· + ·) 0

/-- Everything the engine writes onto the SSE response, abstracted to the
three shapes the code emits: a content chunk (`sseChunk(reqId, text)`), a
finish chunk (`sseChunk(reqId, null, reason)`), and the literal terminator
line `data: [DONE]`. -/
inductive SSEWrite where
  | content (text : String)
  | stop (finishReason : String)
  | done
deriving DecidableEq

/-- How many `data: [DONE]` lines a write sequence contains. -/
def countDone (ws : List SSEWrite) : Nat :=
  (ws.filter (fun w => w = SSEWrite.done)).length

/-- The quick-fail retry decision taken at the top of the `close` handler:
retry on `alt` exactly when the worker exited non-zero with nothing sent,
within `QUICK_FAIL_MS` of spawn, with retries left, and an untried healthy
worker (else any healthy alternate) exists. -/
def retryTarget (pool limited tried : List String) (worker : String)
    (retryCount maxRetries : Nat) (o : AttemptOutcome) : Option String :=
  if o.code ≠ 0 ∧ sentContentOf o = false ∧ o.elapsed < QUICK_FAIL_MS ∧
      retryCount < maxRetries then
    match findUntriedWorker pool tried limited with
    | some u => some u
    | none => getAlternateWorker pool limited worker
  else none

/-- The `workerStats.errors` category counters of `src/server.mjs`. -/
structure WorkerErrors where
  cli_crash : Nat := 0
  cli_killed : Nat := 0
  context_overflow : Nat := 0
  api_error : Nat := 0
  stream_retry : Nat := 0
  timeout : Nat := 0
  queue_timeout : Nat := 0
  safety_refusal : Nat := 0
  other : Nat := 0
deriving DecidableEq

/-- `recordWorkerError(worker, category, detail)` restricted to the error
counters: bump the named category if it is one of the declared keys, else
bump `other`. -/
def recordWorkerError (errs : WorkerErrors) (category : String) : WorkerErrors :=
  if category = "cli_crash" then { errs with cli_crash := errs.cli_crash + 1 }
  else if category = "cli_killed" then { errs with cli_killed := errs.cli_killed + 1 }
  else if category = "context_overflow" then { errs with context_overflow := errs.context_overflow + 1 }
  else if category = "api_error" then { errs with api_error := errs.api_error + 1 }
  else if category = "stream_retry" then { errs with stream_retry := errs.stream_retry + 1 }
  else if category = "timeout" then { errs with timeout := errs.timeout + 1 }
  else if category = "queue_timeout" then { errs with queue_timeout := errs.queue_timeout + 1 }
  else if category = "safety_refusal" then { errs with safety_refusal := errs.safety_refusal + 1 }
  else { errs with other := errs.other + 1 }

/-- ASCII lower-casing of one character, modelling `String.toLowerCase` on
the ASCII texts involved. -/
def lowerChar (c : Char) : Char :=
  if 65 ≤ c.toNat ∧ c.toNat ≤ 90 then Char.ofNat (c.toNat + 32) else c

/-- Lower-case a whole string. -/
def lowerStr (s : String) : String := String.mk (s.data.map lowerChar)

/-- Character-list prefix test. -/
def isPrefixL : List Char → List Char → Bool
  | [], _ => true
  | _ :: _, [] => false
  | p :: ps, h :: hs => p = h ∧ isPrefixL ps hs

/-- Character-list substring test, modelling `String.includes`. -/
def containsL (pat : List Char) : List Char → Bool
  | [] => pat.isEmpty
  | h :: hs => isPrefixL pat (h :: hs) ∨ containsL pat hs

/-- `haystack.includes(needle)`. -/
def strContains (s pat : String) : Bool := containsL pat.data s.data

/-- The fixed refusal-phrase list of the close handler. -/
def REFUSAL_PATTERNS : List String :=
  ["i cannot", "i can't", "i'm not able", "i am not able",
   "i won't", "i will not", "safety concern", "unauthorized access",
   "not authorized", "security risk", "i must decline",
   "cannot assist with", "unable to comply", "not comfortable"]

/-- The refusal test the close handler applies to its snapshot string. -/
def isRefusal (snapshot : String) : Bool :=
  REFUSAL_PATTERNS.any (fun p => strContains (lowerStr snapshot) p)

/-- The error-counter updates one `close` event performs: `stream_retry`
when the quick-fail retry fires; otherwise `cli_killed`/`cli_crash` on a
non-zero exit, then — when content was sent, under 2000 output chars, and
the trailing buffer (lower-cased) contains a refusal phrase — a further
`recordWorkerError(worker, "other", "safety_refusal ...")`. -/
def closeErrorRecording (pool limited tried : List String) (worker : String)
    (retryCount maxRetries : Nat) (o : AttemptOutcome) (errs : WorkerErrors) :
    WorkerErrors :=
  match retryTarget pool limited tried worker retryCount maxRetries o with
  | some _ => recordWorkerError errs "stream_retry"
  | none =>
    let errs1 :=
      if o.code ≠ 0 then
        recordWorkerError errs (if o.code = 143 then "cli_killed" else "cli_crash")
      else errs
    if sentContentOf o = true ∧ outputCharsOf o < 2000 ∧ isRefusal o.buffer = true then
      recordWorkerError errs1 "other"
    else errs1

/-- The client-visible writes of one attempt's stdout loop: the forwarded
delta texts, then — only if no delta text was forwarded — the `result`
event's text. -/
def attemptWrites (o : AttemptOutcome) : List SSEWrite :=
  o.chunks.map SSEWrite.content ++
    (if o.chunks.isEmpty then
      match o.resultText with
      | some t => [SSEWrite.content t]
      | none => []
    else [])

/-- The writes of the trailing-buffer flush in the close handler (these are
always `sseChunk` content writes, never a terminator). -/
def flushWrites (o : AttemptOutcome) : List SSEWrite :=
  o.flushTexts.map SSEWrite.content

/-- One line of the fallback API's SSE response, as the relay loop of
`streamFromFallbackApi` classifies it. -/
inductive FbLine where
  | doneLine
  | delta (text : String)
  | finish (reason : String)
deriving DecidableEq

/-- What `streamFromFallbackApi` receives from the fallback endpoint. -/
inductive FallbackResult where
  | httpError (status : Nat)
  | netError
  | stream (lines : List FbLine)
deriving DecidableEq

/-- The writes `streamFromFallbackApi` performs: upstream `data: [DONE]`
lines are forwarded as-is, non-empty deltas become content chunks, finish
reasons become finish chunks; on upstream end an empty-response notice is
written if no delta arrived, then a final finish chunk and `data: [DONE]`.
The HTTP-error and network-error paths write an error notice, a finish
chunk and `data: [DONE]`. -/
def fallbackApiWrites : FallbackResult → List SSEWrite
  | .httpError status =>
    [SSEWrite.content ("[Fallback error: HTTP " ++ toString status ++ "]"),
     SSEWrite.stop "stop", SSEWrite.done]
  | .netError =>
    [SSEWrite.content "[Fallback unreachable]", SSEWrite.stop "stop", SSEWrite.done]
  | .stream lines =>
    let body := (lines.map (fun l =>
      match l with
      | FbLine.doneLine => [SSEWrite.done]
      | FbLine.delta t => if t = "" then [] else [SSEWrite.content t]
      | FbLine.finish r => [SSEWrite.stop r])).flatten
    let outputChars : Nat := (lines.map (fun l =>
      match l with
      | FbLine.delta t => t.length
      | _ => 0)).foldl (· + ·) 0
    body ++
      (if outputChars = 0 then [SSEWrite.content "[Fallback: empty response]"] else []) ++
      [SSEWrite.stop "stop", SSEWrite.done]

/-- How a streaming request ended: a normal finalisation (finish chunk plus
`data: [DONE]`), a hand-off to the fallback API, or — impossible in the real
engine, where every spawned attempt eventually closes — running out of
supplied attempt outcomes. -/
inductive Termination where
  | finalized
  | fellBack
  | starved
deriving DecidableEq

/-- The streaming state machine across attempts, driven by one
`AttemptOutcome` per spawned worker: each attempt registers its worker as
tried, forwards its writes, and on close either retries on the quick-fail
worker, falls back to the HTTP API (non-zero exit, nothing sent, no retry
available), or finalises with a finish chunk and one `data: [DONE]`.
`MAX_RETRIES = _workerPool.length`.  The client is modelled as connected
throughout (`canWrite` true). -/
def runAttempts (pool limited : List String) (fb : FallbackResult) :
    List AttemptOutcome → String → List String → Nat → List SSEWrite × Termination
  | [], _, _, _ => ([], .starved)
  | o :: rest, worker, tried, retryCount =>
    let tried1 := if tried.contains worker then tried else tried ++ [worker]
    match retryTarget pool limited tried1 worker retryCount pool.length o with
    | some alt =>
      let (ws, t) := runAttempts pool limited fb rest alt tried1 (retryCount + 1)
      (attemptWrites o ++ ws, t)
    | none =>
      if o.code ≠ 0 ∧ sentContentOf o = false then
        (attemptWrites o ++ flushWrites o ++ fallbackApiWrites fb, .fellBack)
      else
        (attemptWrites o ++ flushWrites o ++ [SSEWrite.stop "stop", SSEWrite.done],
         .finalized)

end Server

namespace FairQueue

/-- Iterated invocation of one release closure on the queue state (the
grants a dispatch resolves are applied to the state; the closure's flag is
threaded through). -/
def releaseIter (cfg : Config) (now : Nat) : Nat → Handle × QState → Handle × QState
  | 0, p => p
  | n + 1, (h, s) =>
    let (h1, s1, _) := releaseFn cfg now h s
    releaseIter cfg now n (h1, s1)

/-- The fair-queue configuration of scenario S1: `maxConcurrent = 1`,
everything else at its defaults. -/
def cfg1 : Config := { maxConcurrent := 1 }

/-- Scenario S1 of the specification: sources A and B submit four
normal-priority requests each (alternating arrival, as concurrent clients
interleave), then each granted request completes in turn. -/
def evS1 : List Ev :=
  [.acq "A" 1 "normal", .acq "B" 11 "normal", .acq "A" 2 "normal", .acq "B" 12 "normal",
   .acq "A" 3 "normal", .acq "B" 13 "normal", .acq "A" 4 "normal", .acq "B" 14 "normal",
   .rel 1, .rel 11, .rel 2, .rel 12, .rel 3, .rel 13, .rel 4, .rel 14]

/-- A three-source scenario: D holds the single slot while A queues two
requests, B one, and C two; then every granted request completes in turn. -/
def evRR : List Ev :=
  [.acq "D" 0 "normal", .acq "A" 1 "normal", .acq "A" 2 "normal", .acq "B" 11 "normal",
   .acq "C" 21 "normal", .acq "C" 22 "normal",
   .rel 0, .rel 1, .rel 11, .rel 2, .rel 21, .rel 22]

/-- Indexing into a grant trace (out-of-range positions yield a dummy). -/
def grantAt (tr : List Grant) (i : Nat) : Grant :=
  (tr.get? i).getD { rid := 0, sourceId := "", handle := { leaseId := 0, sourceId := "", released := false }, nonEmptyBefore := [] }

/-- Strict round-robin across sources with non-empty queues, as a decidable
trace property: between any two grants to the same source, every other
source whose queue was non-empty at every dispatch in between (inclusive of
the later grant's dispatch) receives at least one grant. -/
def strictRRb (tr : List Grant) : Bool :=
  let srcs := (tr.map (fun g => g.nonEmptyBefore)).flatten
  (List.range tr.length).all (fun j =>
    (List.range j).all (fun i =>
      !((grantAt tr i).sourceId == (grantAt tr j).sourceId) ||
      srcs.all (fun s =>
        !(!(s == (grantAt tr j).sourceId) &&
          (List.range (j - i)).all (fun d =>
            (grantAt tr (i + 1 + d)).nonEmptyBefore.contains s)) ||
        (List.range (j - i - 1)).any (fun d =>
          (grantAt tr (i + 1 + d)).sourceId == s))))

end FairQueue

namespace Server

/-- A worker exit that triggers the refusal detector: content was sent
(5 output chars, well under 2000), the worker exited 0, and the trailing
buffer holds a refusal phrase. -/
def refusalOutcome : AttemptOutcome :=
  { chunks := ["Done."], resultText := none, code := 0, elapsed := 1200,
    flushTexts := [], buffer := "I cannot assist with that task" }

end Server

/-- C2, counterexample: it is not the case that a request is routed to the
direct HTTP-API path if and only if that path is configured (CLI-agent mode
off, token pool non-empty) and the request carries tool definitions.  With
`USE_CLI_AGENTS` off and one pool token, a request with zero tools is still
routed to the API-direct path. -/
theorem Server.route_tools_claim_false :
    ¬ (∀ (cfg : Server.RouteCfg) (toolCount : Nat),
        Server.routeCompletions cfg toolCount = Server.Route.apiDirect ↔
          ((cfg.useCliAgents = false ∧ 0 < cfg.tokenPoolSize) ∧ 0 < toolCount)) := by
  intro h
  have h0 := (h { useCliAgents := false, tokenPoolSize := 1 } 0).mp rfl
  exact absurd h0.2 (by decide)

/-- C2, amended: a request is routed to the direct HTTP-API path if and only
if CLI-agent mode is off and the token pool is non-empty — independently of
whether the request carries tool definitions; with CLI-agent mode on (or an
empty token pool) every request, tools or not, takes the CLI-worker path. -/
theorem Server.route_iff_cli_agents_off_and_tokens
    (cfg : Server.RouteCfg) (toolCount : Nat) :
    Server.routeCompletions cfg toolCount = Server.Route.apiDirect ↔
      (cfg.useCliAgents = false ∧ 0 < cfg.tokenPoolSize) := by
  unfold Server.routeCompletions
  constructor
  · intro h
    by_contra hc
    rw [if_neg hc] at h
    exact Server.Route.noConfusion h
  · intro h
    rw [if_pos h]

/-- C3, counterexample: dispatch is not strictly round-robin across sources
with non-empty queues.  In the replayed scenario `evRR` (slot held by D;
A queues two requests, then B one, then C two; grants released in order)
the grant trace is D, A, B, A, C, C: source A receives its second grant
while source C has had a non-empty queue at every dispatch since A's first
grant and has received none. -/
theorem FairQueue.round_robin_claim_false :
    (FairQueue.runScenario FairQueue.cfg1 FairQueue.evRR).log.map
        (fun g => (g.sourceId, g.rid)) =
      [("D", 0), ("A", 1), ("B", 11), ("A", 2), ("C", 21), ("C", 22)] ∧
    FairQueue.strictRRb (FairQueue.runScenario FairQueue.cfg1 FairQueue.evRR).log
      = false := by
  constructor
  · rfl
  · rfl

/-- C3, amended: for the two-source scenario S1 — sources A and B submit
four normal-priority requests each (arrivals alternating) under
`maxConcurrent = 1`, each grant being released in turn — the fair queue
grants slots in the exact order A1, B1, A2, B2, A3, B3, A4, B4.  Dispatch
cycles an index over the array of sources with currently non-empty queues,
which is round-robin while that set is stable; when a source's queue
empties, the rotation can revisit a source before serving another waiting
source, so strict round-robin does not hold in general. -/
theorem FairQueue.two_source_alternation :
    (FairQueue.runScenario FairQueue.cfg1 FairQueue.evS1).log.map
        (fun g => (g.sourceId, g.rid)) =
      [("A", 1), ("B", 11), ("A", 2), ("B", 12),
       ("A", 3), ("B", 13), ("A", 4), ("B", 14)] := by
  rfl

/-- C4: on a streaming worker exit with content sent, fewer than 2000
output chars, and a refusal phrase in the (trailing-buffer) snapshot, the
close handler records the error under the `other` counter — the declared
`safety_refusal` counter stays 0 — and the quick-fail retry does not fire.
This evaluates the embedded close handler at such an exit. -/
theorem Server.refusal_recorded_under_other :
    (Server.closeErrorRecording ["w1", "w2"] [] [] "w1" 0 2
        Server.refusalOutcome {}).other = 1 ∧
    (Server.closeErrorRecording ["w1", "w2"] [] [] "w1" 0 2
        Server.refusalOutcome {}).safety_refusal = 0 ∧
    Server.retryTarget ["w1", "w2"] [] [] "w1" 0 2 Server.refusalOutcome = none := by
  refine ⟨rfl, rfl, rfl⟩

/-- Looking up the key just set returns the new value. -/
theorem alookup_aset_self [DecidableEq κ] (k : κ) (v : α) (l : List (κ × α)) :
    alookup k (aset k v l) = some v := by
  induction l with
  | nil => simp [aset, alookup]
  | cons p rest ih =>
    by_cases h : p.1 = k
    · simp [aset, alookup, h]
    · simp only [aset, alookup]
      rw [if_neg h, alookup, if_neg h]
      exact ih

/-- With a positive request limit, an empty window passes `check`'s core. -/
theorem RateLimiter.checkCore_empty (ml : RateLimiter.ModelLimits)
    (win : RateLimiter.Window) (now estTokens : Nat)
    (hreq : win.requests = []) (htok : win.tokens = 0)
    (hrpm : 0 < ml.requestsPerMin) :
    RateLimiter.checkCore ml win now estTokens =
      some { ok := true, waitMs := 0, reason := none } := by
  unfold RateLimiter.checkCore
  rw [hreq, htok]
  simp only [List.length_nil]
  rw [if_neg (by omega)]
  split
  · simp
  · rfl

/-- A non-empty window whose token sum plus the estimate exceeds the token
ceiling is denied, with the wait computed from the head (oldest) live
event. -/
theorem RateLimiter.checkCore_overflow (ml : RateLimiter.ModelLimits)
    (win : RateLimiter.Window) (now estTokens : Nat)
    (r0 : RateLimiter.RLEntry) (rs : List RateLimiter.RLEntry)
    (hreq : win.requests = r0 :: rs)
    (hover : ml.tokensPerMin < win.tokens + estTokens) :
    ∃ res, RateLimiter.checkCore ml win now estTokens = some res ∧
      res.ok = false ∧
      res.waitMs = max (RateLimiter.WINDOW_MS - (now - r0.ts)) 1000 := by
  unfold RateLimiter.checkCore
  rw [hreq]
  by_cases h1 : ml.requestsPerMin ≤ (r0 :: rs).length
  · rw [if_pos h1]
    simp only [List.head?]
    exact ⟨_, rfl, rfl, rfl⟩
  · rw [if_neg h1, if_pos hover, if_neg (by simp)]
    simp only [List.head?]
    exact ⟨_, rfl, rfl, rfl⟩

/-- C6: with the model's resolved limits demanding at least one request per
minute (true of every deployed limit), and the stored window events in
arrival order: (1) if the sliding window holds no live events, `check`
grants the request even when `estTokens` alone exceeds `tokensPerMin`;
(2) if the window is non-empty and the live token sum plus `estTokens`
exceeds `tokensPerMin`, `check` denies with
`waitMs = max (60000 - (now - ts of the oldest live event)) 1000`, the head
of the live window being its oldest event. -/
theorem RateLimiter.check_empty_window_and_token_overflow
    (limits : RateLimiter.Limits) (windows : RateLimiter.Windows)
    (now : Nat) (model : String) (estTokens : Nat)
    (ml : RateLimiter.ModelLimits)
    (hml : RateLimiter.modelLimitsFor limits model = some ml)
    (hrpm : 0 < ml.requestsPerMin)
    (hsorted : ((alookup model windows).getD []).Pairwise (fun a b => a.ts ≤ b.ts)) :
    ((RateLimiter.getWindow windows model now).requests = [] →
      RateLimiter.check limits windows now model estTokens =
        some { ok := true, waitMs := 0, reason := none }) ∧
    (∀ r0 rs, (RateLimiter.getWindow windows model now).requests = r0 :: rs →
      ml.tokensPerMin < (RateLimiter.getWindow windows model now).tokens + estTokens →
      (∀ e ∈ (RateLimiter.getWindow windows model now).requests, r0.ts ≤ e.ts) ∧
      ∃ res, RateLimiter.check limits windows now model estTokens = some res ∧
        res.ok = false ∧
        res.waitMs = max (RateLimiter.WINDOW_MS - (now - r0.ts)) 1000) := by
  have hcheck : RateLimiter.check limits windows now model estTokens =
      RateLimiter.checkCore ml (RateLimiter.getWindow windows model now) now estTokens := by
    unfold RateLimiter.check
    rw [hml]
    rfl
  have htok0 : (RateLimiter.getWindow windows model now).requests = [] →
      (RateLimiter.getWindow windows model now).tokens = 0 := by
    unfold RateLimiter.getWindow
    intro h
    simp only at h ⊢
    rw [h]
    rfl
  constructor
  · intro hreq
    rw [hcheck]
    exact RateLimiter.checkCore_empty ml _ now estTokens hreq (htok0 hreq) hrpm
  · intro r0 rs hreq hover
    constructor
    · have hpw : ((RateLimiter.getWindow windows model now).requests).Pairwise
          (fun a b => a.ts ≤ b.ts) := by
        unfold RateLimiter.getWindow
        simp only
        exact List.Pairwise.sublist (List.filter_sublist _) hsorted
      rw [hreq] at hpw
      intro e he
      rw [hreq] at he
      rcases List.mem_cons.mp he with h | h
      · rw [h]
      · exact List.rel_of_pairwise_cons hpw h
    · rw [hcheck]
      exact RateLimiter.checkCore_overflow ml _ now estTokens r0 rs hreq hover

/-- Witness for C6, at the deployed sonnet limits: one live event holding
100000 tokens, with a further 100000 estimated, is denied with a 59-second
wait; the hypotheses of the theorem hold at this input. -/
theorem RateLimiter.check_empty_window_and_token_overflow_witness :
    ∃ res, RateLimiter.check RateLimiter.RATE_LIMITS
        [("sonnet", [{ ts := 0, tok := 100000 }])] 1000 "sonnet" 100000 = some res ∧
      res.ok = false ∧ res.waitMs = 59000 := by
  have h := (RateLimiter.check_empty_window_and_token_overflow
    RateLimiter.RATE_LIMITS [("sonnet", [{ ts := 0, tok := 100000 }])] 1000 "sonnet"
    100000 { requestsPerMin := 57, tokensPerMin := 190000 } rfl (by decide)
    (by decide)).2 { ts := 0, tok := 100000 } [] rfl (by decide)
  obtain ⟨res, hres, hok, hwait⟩ := h.2
  exact ⟨res, hres, hok, hwait⟩

/-- C10: for a model name absent from the limits table (the sonnet entry
being present, as deployed), `check` does not fail: it evaluates the request
against the sonnet limits — returning a result whenever sonnet's request
limit is positive — while `record` keeps maintaining the sliding window
under the unknown model name itself, so unknown models are throttled by
sonnet's ceilings. -/
theorem RateLimiter.check_unknown_model_uses_sonnet
    (limits : RateLimiter.Limits) (windows : RateLimiter.Windows)
    (now : Nat) (model : String) (est : Nat)
    (sonnetML : RateLimiter.ModelLimits)
    (hunknown : alookup model limits = none)
    (hsonnet : alookup "sonnet" limits = some sonnetML) :
    RateLimiter.check limits windows now model est =
      RateLimiter.checkCore sonnetML (RateLimiter.getWindow windows model now) now est ∧
    (0 < sonnetML.requestsPerMin →
      (RateLimiter.check limits windows now model est).isSome = true) ∧
    alookup model (RateLimiter.record windows model now est) =
      some ((RateLimiter.getWindow windows model now).requests ++
        [{ ts := now, tok := est }]) := by
  have hml : RateLimiter.modelLimitsFor limits model = some sonnetML := by
    unfold RateLimiter.modelLimitsFor
    rw [hunknown, hsonnet]
    rfl
  have hcheck : RateLimiter.check limits windows now model est =
      RateLimiter.checkCore sonnetML (RateLimiter.getWindow windows model now) now est := by
    unfold RateLimiter.check
    rw [hml]
    rfl
  refine ⟨hcheck, ?_, ?_⟩
  · intro hrpm
    rw [hcheck]
    cases hreq : (RateLimiter.getWindow windows model now).requests with
    | nil =>
      rw [RateLimiter.checkCore_empty sonnetML _ now est hreq ?_ hrpm]
      · rfl
      · revert hreq
        unfold RateLimiter.getWindow
        simp only
        intro h
        rw [h]
        rfl
    | cons r0 rs =>
      unfold RateLimiter.checkCore
      rw [hreq]
      by_cases h1 : sonnetML.requestsPerMin ≤ (r0 :: rs).length
      · rw [if_pos h1]
        rfl
      · rw [if_neg h1]
        split
        · rw [if_neg (by simp)]
          rfl
        · rfl
  · unfold RateLimiter.record
    exact alookup_aset_self model _ windows

/-- Witness for C10: the model name "unknown-model" is not in the deployed
limits table; `check` against an empty window equals the sonnet-limits core
check, is defined, and `record` stores the event under "unknown-model". -/
theorem RateLimiter.check_unknown_model_uses_sonnet_witness :
    RateLimiter.check RateLimiter.RATE_LIMITS [] 0 "unknown-model" 999999 =
      RateLimiter.checkCore { requestsPerMin := 57, tokensPerMin := 190000 }
        (RateLimiter.getWindow [] "unknown-model" 0) 0 999999 ∧
    (RateLimiter.check RateLimiter.RATE_LIMITS [] 0 "unknown-model" 999999).isSome
      = true ∧
    alookup "unknown-model"
        (RateLimiter.record [] "unknown-model" 0 999999) =
      some ((RateLimiter.getWindow [] "unknown-model" 0).requests ++
        [{ ts := 0, tok := 999999 }]) := by
  have h := RateLimiter.check_unknown_model_uses_sonnet RateLimiter.RATE_LIMITS []
    0 "unknown-model" 999999 { requestsPerMin := 57, tokensPerMin := 190000 }
    (by decide) (by decide)
  exact ⟨h.1, h.2.1 (by decide), h.2.2⟩

/-- A lookup is `none` exactly when no binding carries the key. -/
theorem alookup_eq_none_iff [DecidableEq κ] (k : κ) (l : List (κ × α)) :
    alookup k l = none ↔ ∀ p ∈ l, ¬ p.1 = k := by
  induction l with
  | nil => simp [alookup]
  | cons p rest ih =>
    by_cases h : p.1 = k
    · simp [alookup, h]
    · simp only [alookup, if_neg h, List.mem_cons]
      rw [ih]
      constructor
      · intro hall q hq
        rcases hq with hq | hq
        · rw [hq]; exact h
        · exact hall q hq
      · intro hall q hq
        exact hall q (Or.inr hq)

/-- Deleting a key removes every binding of it. -/
theorem alookup_aerase_self [DecidableEq κ] (k : κ) (l : List (κ × α)) :
    alookup k (aerase k l) = none := by
  rw [alookup_eq_none_iff]
  intro p hp
  simpa using (List.mem_filter.mp hp).2

/-- Deleting any key cannot introduce a binding of another. -/
theorem alookup_none_aerase [DecidableEq κ] (k j : κ) (l : List (κ × α))
    (h : alookup k l = none) : alookup k (aerase j l) = none := by
  rw [alookup_eq_none_iff] at h ⊢
  intro p hp
  exact h p (List.mem_filter.mp hp).1

/-- `tryDispatch` on a state with an empty queue is the identity. -/
theorem FairQueue.tryDispatch_empty (cfg : FairQueue.Config) (now : Nat)
    (s : FairQueue.QState) (hq : s.totalQueued = 0) :
    FairQueue.tryDispatch cfg now s = (s, []) := by
  unfold FairQueue.tryDispatch
  rw [hq]
  rfl

/-- `decrementSourceActive` only touches the per-source counts. -/
theorem FairQueue.decrementSourceActive_fields (s : FairQueue.QState) (src : String) :
    (FairQueue.decrementSourceActive s src).activeCount = s.activeCount ∧
    (FairQueue.decrementSourceActive s src).totalQueued = s.totalQueued ∧
    (FairQueue.decrementSourceActive s src).activeLeases = s.activeLeases ∧
    (FairQueue.decrementSourceActive s src).sourceQueues = s.sourceQueues ∧
    (FairQueue.decrementSourceActive s src).sourceOrder = s.sourceOrder := by
  unfold FairQueue.decrementSourceActive
  simp only
  split <;> exact ⟨rfl, rfl, rfl, rfl, rfl⟩

/-- `decrementSourceActive` takes one off the source's active count. -/
theorem FairQueue.getSourceActiveCount_decrement (s : FairQueue.QState) (src : String) :
    FairQueue.getSourceActiveCount (FairQueue.decrementSourceActive s src) src =
      FairQueue.getSourceActiveCount s src - 1 := by
  unfold FairQueue.decrementSourceActive
  simp only
  split
  · rename_i hle
    have h0 : FairQueue.getSourceActiveCount
        { s with activePerSource := aerase src s.activePerSource } src = 0 := by
      unfold FairQueue.getSourceActiveCount
      simp [alookup_aerase_self]
    rw [h0]
    omega
  · unfold FairQueue.getSourceActiveCount
    simp [alookup_aset_self]

/-- Once its flag is set, a release closure leaves the state untouched. -/
theorem FairQueue.releaseIter_released (cfg : FairQueue.Config) (now : Nat)
    (n : Nat) (h : FairQueue.Handle) (s : FairQueue.QState)
    (hrel : h.released = true) :
    FairQueue.releaseIter cfg now n (h, s) = (h, s) := by
  induction n with
  | zero => rfl
  | succ m ih =>
    unfold FairQueue.releaseIter FairQueue.releaseFn
    rw [hrel]
    exact ih

/-- C7: invoking a lease's release closure N ≥ 1 times (so in particular
N ≥ 2 times), in a state where its lease is registered and nothing is
queued, decrements `activeCount` and the source's active count exactly
once: the result after N invocations equals the result after one, whose
counts are the original counts minus one. -/
theorem FairQueue.release_idempotent (cfg : FairQueue.Config) (now : Nat)
    (h : FairQueue.Handle) (s : FairQueue.QState) (N : Nat)
    (hrel : h.released = false)
    (hlease : (alookup h.leaseId s.activeLeases).isSome = true)
    (hq : s.totalQueued = 0)
    (hact : 1 ≤ s.activeCount)
    (hsrc : 1 ≤ FairQueue.getSourceActiveCount s h.sourceId)
    (hN : 1 ≤ N) :
    (FairQueue.releaseIter cfg now N (h, s)).2.activeCount + 1 = s.activeCount ∧
    FairQueue.getSourceActiveCount (FairQueue.releaseIter cfg now N (h, s)).2
        h.sourceId + 1 = FairQueue.getSourceActiveCount s h.sourceId ∧
    FairQueue.releaseIter cfg now N (h, s) =
      FairQueue.releaseIter cfg now 1 (h, s) := by
  obtain ⟨M, rfl⟩ : ∃ M, N = M + 1 := ⟨N - 1, by omega⟩
  set sdec := FairQueue.decrementSourceActive
    { s with activeLeases := aerase h.leaseId s.activeLeases,
             activeCount := s.activeCount - 1 } h.sourceId with hsdec
  have hdq : sdec.totalQueued = 0 := by
    rw [hsdec]
    unfold FairQueue.decrementSourceActive
    simp only
    split <;> exact hq
  have hdec : FairQueue.releaseFn cfg now h s =
      ({ h with released := true }, sdec, []) := by
    unfold FairQueue.releaseFn
    rw [hrel]
    simp only [Bool.false_eq_true, if_false, hlease, if_pos]
    rw [FairQueue.tryDispatch_empty cfg now sdec hdq]
  have hiter : ∀ m, FairQueue.releaseIter cfg now (m + 1) (h, s) =
      ({ h with released := true }, sdec) := by
    intro m
    unfold FairQueue.releaseIter
    rw [hdec]
    exact FairQueue.releaseIter_released cfg now m _ _ rfl
  have hcount : sdec.activeCount = s.activeCount - 1 := by
    rw [hsdec]
    exact (FairQueue.decrementSourceActive_fields _ _).1
  have hsrccount : FairQueue.getSourceActiveCount sdec h.sourceId + 1 =
      FairQueue.getSourceActiveCount s h.sourceId := by
    rw [hsdec]
    rw [FairQueue.getSourceActiveCount_decrement]
    have hmid : FairQueue.getSourceActiveCount
        { s with activeLeases := aerase h.leaseId s.activeLeases,
                 activeCount := s.activeCount - 1 } h.sourceId =
        FairQueue.getSourceActiveCount s h.sourceId := rfl
    rw [hmid]
    omega
  refine ⟨?_, ?_, ?_⟩
  · rw [hiter M]
    simp only [hcount]
    omega
  · rw [hiter M]
    exact hsrccount
  · rw [hiter M, hiter 0]

/-- Witness for C7: grant one slot on an empty queue, then invoke its
release closure twice; the active count returns to 0 exactly once. -/
theorem FairQueue.release_idempotent_witness :
    (FairQueue.releaseIter FairQueue.cfg1 0 2
        ((FairQueue.grantSlot {} "A" 0).1, (FairQueue.grantSlot {} "A" 0).2)).2.activeCount
        + 1 = ((FairQueue.grantSlot {} "A" 0).2).activeCount := by
  have h := FairQueue.release_idempotent FairQueue.cfg1 0
    (FairQueue.grantSlot {} "A" 0).1 ((FairQueue.grantSlot {} "A" 0).2) 2
    rfl rfl rfl (by decide) (by decide) (by decide)
  exact h.1

/-- Deleting the key of a member of a unique-key association list removes
exactly one binding. -/
theorem aerase_len_of_mem_nodup [DecidableEq κ] {l : List (κ × α)} {p : κ × α}
    (hkeys : (l.map Prod.fst).Nodup) (hp : p ∈ l) :
    (aerase p.1 l).length + 1 = l.length := by
  induction l with
  | nil => cases hp
  | cons q rest ih =>
    rw [List.map_cons, List.nodup_cons] at hkeys
    rcases List.mem_cons.mp hp with hq | hq
    · subst hq
      unfold aerase
      rw [List.filter_cons]
      have hrest : ∀ r ∈ rest, ¬ r.1 = p.1 := by
        intro r hr hcontra
        exact hkeys.1 (hcontra ▸ List.mem_map_of_mem Prod.fst hr)
      rw [List.filter_eq_self.mpr (fun r hr => by simpa using hrest r hr)]
      simp
    · by_cases hqp : q.1 = p.1
      · exact absurd (hqp ▸ List.mem_map_of_mem Prod.fst hq) hkeys.1
      · unfold aerase
        rw [List.filter_cons]
        have : (decide (¬ q.1 = p.1)) = true := by simpa using hqp
        rw [if_pos (by simpa using hqp)]
        simp only [List.length_cons]
        have := ih hkeys.2 hq
        unfold aerase at this
        omega

/-- `sweepStep` erases the lease, decrements `activeCount`, and leaves the
queue untouched. -/
theorem FairQueue.sweepStep_fields (st : FairQueue.QState) (q : Nat × FairQueue.Lease) :
    (FairQueue.sweepStep st q).activeLeases = aerase q.1 st.activeLeases ∧
    (FairQueue.sweepStep st q).activeCount = st.activeCount - 1 ∧
    (FairQueue.sweepStep st q).totalQueued = st.totalQueued := by
  unfold FairQueue.sweepStep
  exact ⟨(FairQueue.decrementSourceActive_fields _ _).2.2.1,
         (FairQueue.decrementSourceActive_fields _ _).1,
         (FairQueue.decrementSourceActive_fields _ _).2.1⟩

/-- A key already absent from the lease table stays absent through any run
of force-releases. -/
theorem FairQueue.sweepFold_none_mono (k : Nat) :
    ∀ (es : List (Nat × FairQueue.Lease)) (st : FairQueue.QState),
    alookup k st.activeLeases = none →
    alookup k (es.foldl FairQueue.sweepStep st).activeLeases = none := by
  intro es
  induction es with
  | nil => intro st h; exact h
  | cons q es' ih =>
    intro st h
    simp only [List.foldl_cons]
    apply ih
    rw [(FairQueue.sweepStep_fields st q).1]
    exact alookup_none_aerase _ _ _ h

/-- Folding force-releases over distinct registered leases: the queue is
untouched, exactly one lease and one active slot go per entry (so the
count-equals-leases invariant is preserved), and each force-released lease
id is no longer registered. -/
theorem FairQueue.sweepFold_spec :
    ∀ (es : List (Nat × FairQueue.Lease)) (st : FairQueue.QState),
    (st.activeLeases.map Prod.fst).Nodup →
    (∀ q ∈ es, q ∈ st.activeLeases) →
    (es.map Prod.fst).Nodup →
    (es.foldl FairQueue.sweepStep st).totalQueued = st.totalQueued ∧
    (es.foldl FairQueue.sweepStep st).activeLeases.length + es.length =
      st.activeLeases.length ∧
    (st.activeCount = st.activeLeases.length →
      (es.foldl FairQueue.sweepStep st).activeCount =
        (es.foldl FairQueue.sweepStep st).activeLeases.length) ∧
    (∀ k, (∃ v, (k, v) ∈ es) →
      alookup k (es.foldl FairQueue.sweepStep st).activeLeases = none) := by
  intro es
  induction es with
  | nil =>
    intro st _ _ _
    exact ⟨rfl, rfl, fun h => h, by simp⟩
  | cons q es' ih =>
    intro st hkeys hmem hes
    have hq : q ∈ st.activeLeases := hmem q (List.mem_cons_self q es')
    have hfields := FairQueue.sweepStep_fields st q
    rw [List.map_cons, List.nodup_cons] at hes
    have hkeys1 : ((FairQueue.sweepStep st q).activeLeases.map Prod.fst).Nodup := by
      rw [hfields.1]
      exact ((List.filter_sublist _).map Prod.fst).nodup hkeys
    have hmem1 : ∀ p ∈ es', p ∈ (FairQueue.sweepStep st q).activeLeases := by
      intro p hp
      rw [hfields.1]
      apply List.mem_filter.mpr
      refine ⟨hmem p (List.mem_cons_of_mem _ hp), ?_⟩
      have hne : ¬ p.1 = q.1 := by
        intro hcontra
        exact hes.1 (hcontra ▸ List.mem_map_of_mem Prod.fst hp)
      simpa using hne
    have hlen1 : (FairQueue.sweepStep st q).activeLeases.length + 1 =
        st.activeLeases.length := by
      rw [hfields.1]
      exact aerase_len_of_mem_nodup hkeys hq
    obtain ⟨htq, hlen, hinv, hnone⟩ := ih (FairQueue.sweepStep st q) hkeys1 hmem1 hes.2
    refine ⟨?_, ?_, ?_, ?_⟩
    · simp only [List.foldl_cons]
      rw [htq, hfields.2.2]
    · simp only [List.foldl_cons, List.length_cons]
      omega
    · intro hbase
      simp only [List.foldl_cons]
      apply hinv
      rw [hfields.2.1]
      omega
    · intro k hk
      obtain ⟨v, hv⟩ := hk
      simp only [List.foldl_cons]
      rcases List.mem_cons.mp hv with hv | hv
      · have hkq : k = q.1 := congrArg Prod.fst hv
        apply FairQueue.sweepFold_none_mono
        rw [hfields.1, hkq]
        exact alookup_aerase_self _ _
      · exact hnone k ⟨v, hv⟩

/-- C9: if the periodic leak sweep has force-released a lease (held longer
than `maxLeaseMs`), a later invocation of that lease's release closure
leaves the state unchanged — it does not decrement `activeCount` or the
per-source count again, only re-triggering (here vacuous) dispatch — and
`activeCount` still equals the number of outstanding leases after the
sweep and after the closure runs. -/
theorem FairQueue.sweep_then_release_no_double_decrement
    (cfg : FairQueue.Config) (now : Nat) (h : FairQueue.Handle)
    (s : FairQueue.QState) (l : FairQueue.Lease)
    (hrel : h.released = false)
    (hlease : (h.leaseId, l) ∈ s.activeLeases)
    (hexp : cfg.maxLeaseMs < now - l.acquiredAt)
    (hq : s.totalQueued = 0)
    (hnodup : (s.activeLeases.map Prod.fst).Nodup)
    (hinv : s.activeCount = s.activeLeases.length) :
    (FairQueue.releaseFn cfg now h
        (FairQueue.sweepLeakedLeases cfg now s).1).2.1 =
      (FairQueue.sweepLeakedLeases cfg now s).1 ∧
    (FairQueue.sweepLeakedLeases cfg now s).1.activeCount =
      (FairQueue.sweepLeakedLeases cfg now s).1.activeLeases.length := by
  set expired := s.activeLeases.filter
    (fun p => cfg.maxLeaseMs < now - p.2.acquiredAt) with hexpired
  have hmemexp : (h.leaseId, l) ∈ expired := by
    rw [hexpired]
    exact List.mem_filter.mpr ⟨hlease, by simpa using hexp⟩
  have hspec := FairQueue.sweepFold_spec expired s hnodup
    (fun q hqmem => (List.mem_filter.mp (hexpired ▸ hqmem)).1)
    (((List.filter_sublist _).map Prod.fst).nodup hnodup)
  obtain ⟨htq, hlen, hinvf, hnone⟩ := hspec
  have hs1q : (expired.foldl FairQueue.sweepStep s).totalQueued = 0 := by
    rw [htq, hq]
  have hsweep : FairQueue.sweepLeakedLeases cfg now s =
      (expired.foldl FairQueue.sweepStep s, []) := by
    unfold FairQueue.sweepLeakedLeases
    rw [← hexpired]
    have hne : expired.isEmpty = false := by
      cases hex : expired with
      | nil => rw [hex] at hmemexp; cases hmemexp
      | cons a b => rfl
    simp only [hne, Bool.false_eq_true, if_false]
    exact FairQueue.tryDispatch_empty cfg now _ hs1q
  rw [hsweep]
  constructor
  · unfold FairQueue.releaseFn
    rw [hrel]
    simp only [Bool.false_eq_true, if_false]
    have hnolease : alookup h.leaseId
        (expired.foldl FairQueue.sweepStep s).activeLeases = none :=
      hnone h.leaseId ⟨l, hmemexp⟩
    rw [hnolease]
    simp only [Option.isSome_none, Bool.false_eq_true, if_false]
    rw [FairQueue.tryDispatch_empty cfg now _ hs1q]
  · exact hinvf hinv

/-- Witness for C9: one granted lease held past `maxLeaseMs` is
force-released by the sweep; its release closure afterwards leaves the
state exactly as the sweep left it. -/
theorem FairQueue.sweep_then_release_witness :
    (FairQueue.releaseFn FairQueue.cfg1 700000 (FairQueue.grantSlot {} "A" 0).1
        (FairQueue.sweepLeakedLeases FairQueue.cfg1 700000
          ((FairQueue.grantSlot {} "A" 0).2)).1).2.1 =
      (FairQueue.sweepLeakedLeases FairQueue.cfg1 700000
        ((FairQueue.grantSlot {} "A" 0).2)).1 := by
  have h := FairQueue.sweep_then_release_no_double_decrement FairQueue.cfg1 700000
    (FairQueue.grantSlot {} "A" 0).1 ((FairQueue.grantSlot {} "A" 0).2)
    { sourceId := "A", acquiredAt := 0 }
    rfl (by decide) (by decide) rfl (by decide) rfl
  exact h.1

/-- Splitting a write sequence splits its `[DONE]` count. -/
theorem Server.countDone_append (a b : List Server.SSEWrite) :
    Server.countDone (a ++ b) = Server.countDone a + Server.countDone b := by
  unfold Server.countDone
  rw [List.filter_append, List.length_append]

/-- Content chunks are never the terminator line. -/
theorem Server.countDone_content_map (l : List String) :
    Server.countDone (l.map Server.SSEWrite.content) = 0 := by
  induction l with
  | nil => rfl
  | cons t rest ih =>
    unfold Server.countDone at ih ⊢
    simp only [List.map_cons, List.filter_cons]
    rw [if_neg (by simp)]
    exact ih

/-- An attempt's stdout loop writes no terminator. -/
theorem Server.countDone_attemptWrites (o : Server.AttemptOutcome) :
    Server.countDone (Server.attemptWrites o) = 0 := by
  unfold Server.attemptWrites
  rw [Server.countDone_append, Server.countDone_content_map]
  split
  · cases o.resultText with
    | none => rfl
    | some t =>
      unfold Server.countDone
      simp only [List.filter_cons]
      rw [if_neg (by simp)]
      rfl
  · rfl

/-- The trailing-buffer flush writes no terminator. -/
theorem Server.countDone_flushWrites (o : Server.AttemptOutcome) :
    Server.countDone (Server.flushWrites o) = 0 :=
  Server.countDone_content_map o.flushTexts

/-- A run of the streaming machine that ends in a normal finalisation has
written exactly one `data: [DONE]`. -/
theorem Server.runAttempts_done_count (pool limited : List String)
    (fb : Server.FallbackResult) :
    ∀ (outcomes : List Server.AttemptOutcome) (w : String) (tried : List String)
      (rc : Nat),
    (Server.runAttempts pool limited fb outcomes w tried rc).2 =
      Server.Termination.finalized →
    Server.countDone (Server.runAttempts pool limited fb outcomes w tried rc).1 = 1 := by
  intro outcomes
  induction outcomes with
  | nil =>
    intro w tried rc hterm
    exact absurd hterm (by simp [Server.runAttempts])
  | cons o rest ih =>
    intro w tried rc hterm
    unfold Server.runAttempts at hterm ⊢
    cases hrt : Server.retryTarget pool limited
        (if tried.contains w then tried else tried ++ [w]) w rc pool.length o with
    | some alt =>
      simp only [hrt] at hterm ⊢
      rw [Server.countDone_append, Server.countDone_attemptWrites, Nat.zero_add]
      exact ih alt _ (rc + 1) hterm
    | none =>
      simp only [hrt] at hterm ⊢
      by_cases hfb : o.code ≠ 0 ∧ Server.sentContentOf o = false
      · rw [if_pos hfb] at hterm
        exact absurd hterm (by simp)
      · rw [if_neg hfb] at hterm ⊢
        rw [Server.countDone_append, Server.countDone_append,
          Server.countDone_attemptWrites, Server.countDone_flushWrites]
        rfl

/-- C1: on every streaming worker exit, the quick-fail retry fires exactly
when the worker exited non-zero, nothing was sent to the client, the exit
came within 5000 ms of spawn, the retry count is below the worker-pool size
(`MAX_RETRIES = pool.length`), and an untried healthy or alternate healthy
worker exists; consequently once any content has been written that exit
never retries, and a run of the streaming machine that finalises normally
— which it does whenever the current attempt sent content — writes exactly
one `data: [DONE]` line. -/
theorem Server.quickfail_retry_policy
    (pool limited tried : List String) (worker : String) (retryCount : Nat)
    (o : Server.AttemptOutcome) (outcomes : List Server.AttemptOutcome)
    (fb : Server.FallbackResult) (w0 : String) :
    ((Server.retryTarget pool limited tried worker retryCount pool.length o).isSome
        = true ↔
      (o.code ≠ 0 ∧ Server.sentContentOf o = false ∧
       o.elapsed < Server.QUICK_FAIL_MS ∧ retryCount < pool.length ∧
       ((Server.findUntriedWorker pool tried limited).isSome = true ∨
        (Server.getAlternateWorker pool limited worker).isSome = true))) ∧
    (Server.sentContentOf o = true →
      Server.retryTarget pool limited tried worker retryCount pool.length o = none) ∧
    ((Server.runAttempts pool limited fb outcomes w0 tried retryCount).2 =
        Server.Termination.finalized →
      Server.countDone
        (Server.runAttempts pool limited fb outcomes w0 tried retryCount).1 = 1) ∧
    (∀ o0 rest, outcomes = o0 :: rest → Server.sentContentOf o0 = true →
      (Server.runAttempts pool limited fb outcomes w0 tried retryCount).2 =
        Server.Termination.finalized) := by
  have hnoretry : ∀ (tr : List String) (rc : Nat) (oo : Server.AttemptOutcome),
      Server.sentContentOf oo = true →
      Server.retryTarget pool limited tr worker rc pool.length oo = none := by
    intro tr rc oo hsent
    unfold Server.retryTarget
    rw [if_neg]
    intro hc
    rw [hsent] at hc
    exact absurd hc.2.1 (by simp)
  refine ⟨?_, hnoretry tried retryCount o, ?_, ?_⟩
  · unfold Server.retryTarget
    split
    · rename_i hcond
      cases hfind : Server.findUntriedWorker pool tried limited with
      | some u =>
        constructor
        · intro _
          exact ⟨hcond.1, hcond.2.1, hcond.2.2.1, hcond.2.2.2, Or.inl rfl⟩
        · intro _
          rfl
      | none =>
        constructor
        · intro halt
          exact ⟨hcond.1, hcond.2.1, hcond.2.2.1, hcond.2.2.2, Or.inr halt⟩
        · intro hrhs
          rcases hrhs.2.2.2.2 with hl | hr
          · exact absurd hl (by simp)
          · exact hr
    · rename_i hcond
      simp only [Option.isSome_none, Bool.false_eq_true, false_iff]
      intro hrhs
      exact hcond ⟨hrhs.1, hrhs.2.1, hrhs.2.2.1, hrhs.2.2.2.1⟩
  · exact Server.runAttempts_done_count pool limited fb outcomes w0 tried retryCount
  · intro o0 rest houtcomes hsent
    subst houtcomes
    unfold Server.runAttempts
    have hrt : Server.retryTarget pool limited
        (if tried.contains w0 then tried else tried ++ [w0]) w0 retryCount
        pool.length o0 = none := by
      unfold Server.retryTarget
      rw [if_neg]
      intro hc
      rw [hsent] at hc
      exact absurd hc.2.1 (by simp)
    simp only [hrt]
    rw [if_neg]
    intro hc
    rw [hsent] at hc
    exact absurd hc.2 (by simp)

/-- Witness for C1: with pool `[w1, w2]`, the first worker exits 1 after
100 ms having sent nothing, the machine retries on the untried worker,
which streams one chunk and exits 0: the run finalises with exactly one
`data: [DONE]` (scenario S5). -/
theorem Server.quickfail_retry_policy_witness :
    Server.countDone (Server.runAttempts ["w1", "w2"] []
      Server.FallbackResult.netError
      [{ chunks := [], resultText := none, code := 1, elapsed := 100,
         flushTexts := [], buffer := "" },
       { chunks := ["hello"], resultText := none, code := 0, elapsed := 4000,
         flushTexts := [], buffer := "" }] "w1" [] 0).1 = 1 := by
  exact (Server.quickfail_retry_policy ["w1", "w2"] [] [] "w1" 0
    { chunks := [], resultText := none, code := 1, elapsed := 100,
      flushTexts := [], buffer := "" }
    [{ chunks := [], resultText := none, code := 1, elapsed := 100,
       flushTexts := [], buffer := "" },
     { chunks := ["hello"], resultText := none, code := 0, elapsed := 4000,
       flushTexts := [], buffer := "" }]
    Server.FallbackResult.netError "w1").2.2.1 (by decide)

/-- A priority rank is always 0, 1 or 2 (unknown priorities default to 1). -/
theorem FairQueue.priorityRank_cases (p : String) :
    FairQueue.priorityRank p = 0 ∨ FairQueue.priorityRank p = 1 ∨
    FairQueue.priorityRank p = 2 := by
  unfold FairQueue.priorityRank FairQueue.PRIORITY_ORDER
  simp only [alookup]
  split
  · simp
  · split
    · simp
    · split
      · simp
      · simp

/-- Stable insertion walks past a prefix of lower-or-equal ranks. -/
theorem FairQueue.insertByRank_append (e : FairQueue.QEntry)
    (A B : List FairQueue.QEntry)
    (hA : ∀ x ∈ A, FairQueue.priorityRank x.priority ≤
      FairQueue.priorityRank e.priority) :
    FairQueue.insertByRank e (A ++ B) = A ++ FairQueue.insertByRank e B := by
  induction A with
  | nil => rfl
  | cons a A' ih =>
    simp only [List.cons_append, FairQueue.insertByRank]
    rw [if_pos (hA a (List.mem_cons_self a A'))]
    show a :: FairQueue.insertByRank e (A' ++ B) = a :: (A' ++ FairQueue.insertByRank e B)
    rw [ih (fun x hx => hA x (List.mem_cons_of_mem a hx))]

/-- Stable insertion stops in front of a strictly greater rank. -/
theorem FairQueue.insertByRank_eq_cons (e : FairQueue.QEntry)
    (B : List FairQueue.QEntry)
    (hB : ∀ b, B.head? = some b → FairQueue.priorityRank e.priority <
      FairQueue.priorityRank b.priority) :
    FairQueue.insertByRank e B = e :: B := by
  cases B with
  | nil => rfl
  | cons b B' =>
    unfold FairQueue.insertByRank
    rw [if_neg (Nat.not_le.mpr (hB b rfl))]

/-- Inserting an element of maximal rank appends it. -/
theorem FairQueue.insertByRank_all_le (e : FairQueue.QEntry)
    (l : List FairQueue.QEntry)
    (hl : ∀ x ∈ l, FairQueue.priorityRank x.priority ≤
      FairQueue.priorityRank e.priority) :
    FairQueue.insertByRank e l = l ++ [e] := by
  induction l with
  | nil => rfl
  | cons a l' ih =>
    simp only [FairQueue.insertByRank]
    rw [if_pos (hl a (List.mem_cons_self a l'))]
    rw [ih (fun x hx => hl x (List.mem_cons_of_mem a hx))]
    rfl

/-- Sorting a list with one appended element inserts it into the sorted
rest. -/
theorem FairQueue.sortByPriority_append_singleton
    (l : List FairQueue.QEntry) (e : FairQueue.QEntry) :
    FairQueue.sortByPriority (l ++ [e]) =
      FairQueue.insertByRank e (FairQueue.sortByPriority l) := by
  unfold FairQueue.sortByPriority
  rw [List.foldl_append]
  rfl

/-- Sorting fixes a list already ordered by rank. -/
theorem FairQueue.sortByPriority_sorted (l : List FairQueue.QEntry)
    (hl : l.Pairwise (fun a b => FairQueue.priorityRank a.priority ≤
      FairQueue.priorityRank b.priority)) :
    FairQueue.sortByPriority l = l := by
  induction l using List.reverseRecOn with
  | nil => rfl
  | append_singleton l x ih =>
    rw [FairQueue.sortByPriority_append_singleton]
    rw [ih (List.Pairwise.sublist (List.sublist_append_left l [x]) hl)]
    exact FairQueue.insertByRank_all_le x l
      (fun y hy => (List.pairwise_append.mp hl).2.2 y hy x (List.mem_singleton.mpr rfl))

/-- The rank-partitioned concatenation is ordered by rank. -/
theorem FairQueue.partition_pairwise (subs : List FairQueue.QEntry) :
    (subs.filter (fun e => FairQueue.priorityRank e.priority = 0) ++
     (subs.filter (fun e => FairQueue.priorityRank e.priority = 1) ++
      subs.filter (fun e => FairQueue.priorityRank e.priority = 2))).Pairwise
      (fun a b => FairQueue.priorityRank a.priority ≤
        FairQueue.priorityRank b.priority) := by
  have hmem : ∀ (c : Nat) (x : FairQueue.QEntry),
      x ∈ subs.filter (fun e => FairQueue.priorityRank e.priority = c) →
      FairQueue.priorityRank x.priority = c := by
    intro c x hx
    simpa using (List.mem_filter.mp hx).2
  apply List.pairwise_append.mpr
  refine ⟨?_, ?_, ?_⟩
  · exact List.pairwise_of_forall_mem_list
      (fun a ha b hb => by rw [hmem 0 a ha, hmem 0 b hb])
  · apply List.pairwise_append.mpr
    refine ⟨?_, ?_, ?_⟩
    · exact List.pairwise_of_forall_mem_list
        (fun a ha b hb => by rw [hmem 1 a ha, hmem 1 b hb])
    · exact List.pairwise_of_forall_mem_list
        (fun a ha b hb => by rw [hmem 2 a ha, hmem 2 b hb])
    · intro a ha b hb
      rw [hmem 1 a ha, hmem 2 b hb]
      omega
  · intro a ha b hb
    rw [hmem 0 a ha]
    rcases List.mem_append.mp hb with h | h
    · rw [hmem 1 b h]
      omega
    · rw [hmem 2 b h]
      omega

/-- The head of a non-empty list is a member. -/
theorem head?_mem_of_eq_some {α : Type} {l : List α} {b : α}
    (hb : l.head? = some b) : b ∈ l := by
  cases l with
  | nil => cases hb
  | cons x xs =>
    have hxb : x = b := by simpa using hb
    rw [← hxb]
    exact List.mem_cons_self x xs

/-- The queue a source accumulates under `acquire`'s sorted insertion is the
rank partition of its submissions, each block in submission order. -/
theorem FairQueue.buildQueue_partition (subs : List FairQueue.QEntry) :
    subs.foldl (fun q e => FairQueue.sortByPriority (q ++ [e])) [] =
      subs.filter (fun e => FairQueue.priorityRank e.priority = 0) ++
      (subs.filter (fun e => FairQueue.priorityRank e.priority = 1) ++
       subs.filter (fun e => FairQueue.priorityRank e.priority = 2)) := by
  induction subs using List.reverseRecOn with
  | nil => rfl
  | append_singleton subs e ih =>
    rw [List.foldl_append, List.foldl_cons, List.foldl_nil, ih]
    have hmem : ∀ (c : Nat) (x : FairQueue.QEntry),
        x ∈ subs.filter (fun q => FairQueue.priorityRank q.priority = c) →
        FairQueue.priorityRank x.priority = c := by
      intro c x hx
      simpa using (List.mem_filter.mp hx).2
    rw [FairQueue.sortByPriority_append_singleton,
      FairQueue.sortByPriority_sorted _ (FairQueue.partition_pairwise subs)]
    rcases FairQueue.priorityRank_cases e.priority with he | he | he
    · rw [FairQueue.insertByRank_append e _ _
        (fun x hx => by rw [hmem 0 x hx, he])]
      rw [FairQueue.insertByRank_eq_cons e _ (fun b hb => by
        rcases List.mem_append.mp (head?_mem_of_eq_some hb) with h | h
        · rw [hmem 1 b h, he]
          omega
        · rw [hmem 2 b h, he]
          omega)]
      simp [List.filter_append, he, List.append_assoc]
    · rw [← List.append_assoc]
      rw [FairQueue.insertByRank_append e _ _ (fun x hx => by
        rcases List.mem_append.mp hx with h | h
        · rw [hmem 0 x h, he]
          omega
        · rw [hmem 1 x h, he])]
      rw [FairQueue.insertByRank_eq_cons e _ (fun b hb => by
        rw [hmem 2 b (head?_mem_of_eq_some hb), he]
        omega)]
      simp [List.filter_append, he, List.append_assoc]
    · rw [← List.append_assoc, ← List.append_assoc]
      rw [FairQueue.insertByRank_all_le e _ (fun x hx => by
        rcases List.mem_append.mp hx with h | h
        · rcases List.mem_append.mp h with h2 | h2
          · rw [hmem 0 x h2, he]
            omega
          · rw [hmem 1 x h2, he]
            omega
        · rw [hmem 2 x h, he])]
      simp [List.filter_append, he, List.append_assoc]

/-- C5: within one source's queue, for every interleaving of high, normal
and low submissions, the queue `acquire` builds (and hence the head-first
dispatch order) lists all pending high entries before any normal entry and
all normal before any low, entries of equal priority staying in submission
(FIFO) order. -/
theorem FairQueue.priority_queue_order (subs : List FairQueue.QEntry)
    (hpr : ∀ e ∈ subs, e.priority = "high" ∨ e.priority = "normal" ∨
      e.priority = "low") :
    subs.foldl (fun q e => FairQueue.sortByPriority (q ++ [e])) [] =
      subs.filter (fun e => e.priority = "high") ++
      (subs.filter (fun e => e.priority = "normal") ++
       subs.filter (fun e => e.priority = "low")) := by
  rw [FairQueue.buildQueue_partition subs]
  have h0 : subs.filter (fun e => FairQueue.priorityRank e.priority = 0) =
      subs.filter (fun e => e.priority = "high") := by
    apply List.filter_congr
    intro e he
    rcases hpr e he with h | h | h <;> rw [h] <;> rfl
  have h1 : subs.filter (fun e => FairQueue.priorityRank e.priority = 1) =
      subs.filter (fun e => e.priority = "normal") := by
    apply List.filter_congr
    intro e he
    rcases hpr e he with h | h | h <;> rw [h] <;> rfl
  have h2 : subs.filter (fun e => FairQueue.priorityRank e.priority = 2) =
      subs.filter (fun e => e.priority = "low") := by
    apply List.filter_congr
    intro e he
    rcases hpr e he with h | h | h <;> rw [h] <;> rfl
  rw [h0, h1, h2]

/-- Witness for C5, scenario S2: submissions with priorities
low, low, high, normal, high, low (request ids 1..6) queue up as
high (3), high (5), normal (4), low (1), low (2), low (6). -/
theorem FairQueue.priority_queue_order_witness :
    ([{ rid := 1, priority := "low", sourceId := "A", enqueuedAt := 0 },
      { rid := 2, priority := "low", sourceId := "A", enqueuedAt := 0 },
      { rid := 3, priority := "high", sourceId := "A", enqueuedAt := 0 },
      { rid := 4, priority := "normal", sourceId := "A", enqueuedAt := 0 },
      { rid := 5, priority := "high", sourceId := "A", enqueuedAt := 0 },
      { rid := 6, priority := "low", sourceId := "A", enqueuedAt := 0 }] :
        List FairQueue.QEntry).foldl
        (fun q e => FairQueue.sortByPriority (q ++ [e])) [] =
      [{ rid := 3, priority := "high", sourceId := "A", enqueuedAt := 0 },
       { rid := 5, priority := "high", sourceId := "A", enqueuedAt := 0 },
       { rid := 4, priority := "normal", sourceId := "A", enqueuedAt := 0 },
       { rid := 1, priority := "low", sourceId := "A", enqueuedAt := 0 },
       { rid := 2, priority := "low", sourceId := "A", enqueuedAt := 0 },
       { rid := 6, priority := "low", sourceId := "A", enqueuedAt := 0 }] := by
  rw [FairQueue.priority_queue_order _ (by decide)]
  rfl

/-- The truncation loop either keeps everything, or prepends the sentinel to
a kept suffix; what is kept (sentinel aside) has total length within the
budget or is a single segment. -/
theorem Server.keptAux_spec (maxChars : Nat) :
    ∀ (rev : List String) (total : Nat) (kept : List String),
    total = (kept.map String.length).sum →
    (total ≤ maxChars ∨ kept.length ≤ 1) →
    (Server.keptAux maxChars rev total kept = rev.reverse ++ kept ∧
      (((rev.reverse ++ kept).map String.length).sum ≤ maxChars ∨
        (rev.reverse ++ kept).length ≤ 1)) ∨
    (∃ j, j < rev.length ∧
      Server.keptAux maxChars rev total kept =
        Server.TRUNCATION_SENTINEL :: ((rev.take j).reverse ++ kept) ∧
      (rev.take j).reverse ++ kept ≠ [] ∧
      ((((rev.take j).reverse ++ kept).map String.length).sum ≤ maxChars ∨
        ((rev.take j).reverse ++ kept).length ≤ 1)) := by
  intro rev
  induction rev with
  | nil =>
    intro total kept hsum hsize
    left
    refine ⟨rfl, ?_⟩
    simp only [List.reverse_nil, List.nil_append]
    rcases hsize with h | h
    · left
      omega
    · right
      exact h
  | cons p rest ih =>
    intro total kept hsum hsize
    by_cases hcond : maxChars < total + p.length ∧ kept ≠ []
    · right
      refine ⟨0, by simp, ?_, ?_, ?_⟩
      · unfold Server.keptAux
        rw [if_pos hcond]
        simp
      · simpa using hcond.2
      · simp only [List.take_zero, List.reverse_nil, List.nil_append]
        rcases hsize with h | h
        · left
          omega
        · right
          exact h
    · have hstep : Server.keptAux maxChars (p :: rest) total kept =
          Server.keptAux maxChars rest (total + p.length) (p :: kept) := by
        simp only [Server.keptAux]
        rw [if_neg hcond]
      have hsum2 : total + p.length = ((p :: kept).map String.length).sum := by
        simp only [List.map_cons, List.sum_cons]
        omega
      have hsize2 : total + p.length ≤ maxChars ∨ (p :: kept).length ≤ 1 := by
        by_cases hk : kept = []
        · right
          simp [hk]
        · left
          by_contra hgt
          exact hcond ⟨Nat.not_le.mp hgt, hk⟩
      rcases ih (total + p.length) (p :: kept) hsum2 hsize2
        with ⟨heq, hsz⟩ | ⟨j, hj, heq, hne, hsz⟩
      · left
        have hlist : rest.reverse ++ (p :: kept) = (p :: rest).reverse ++ kept := by
          simp [List.reverse_cons, List.append_assoc]
        constructor
        · rw [hstep, heq, hlist]
        · rw [← hlist]
          exact hsz
      · right
        have hlist : (rest.take j).reverse ++ (p :: kept) =
            ((p :: rest).take (j + 1)).reverse ++ kept := by
          simp [List.take_succ_cons, List.reverse_cons, List.append_assoc]
        refine ⟨j + 1, by simpa using hj, ?_, ?_, ?_⟩
        · rw [hstep, heq, hlist]
        · rw [← hlist]
          intro hcontra
          simp at hcontra
        · rw [← hlist]
          exact hsz

/-- C8, counterexample: it is not the case that after `extractPrompt` the
joined prompt length is within `maxPromptChars` or the final segment is the
sole retained message.  With `maxPromptChars = 9` and two 4-character user
messages both are retained — the `"\n\n"` separator is not counted by the
truncation budget — and the joined prompt has length 10. -/
theorem Server.extractPrompt_claim_false :
    ¬ (∀ (messages : List Server.Msg) (maxChars : Nat),
        (Server.extractPromptText messages maxChars).length ≤ maxChars ∨
        (∃ p, (Server.allPartsOf messages).getLast? = some p ∧
          (Server.keptParts (Server.allPartsOf messages) maxChars = [p] ∨
           Server.keptParts (Server.allPartsOf messages) maxChars =
             [Server.TRUNCATION_SENTINEL, p]))) := by
  intro h
  rcases h [{ role := "user", content := "aaaa" }, { role := "user", content := "bbbb" }] 9
    with h1 | ⟨p, hp, h2⟩
  · exact absurd h1 (by decide)
  · have hlast : (Server.allPartsOf [{ role := "user", content := "aaaa" },
        { role := "user", content := "bbbb" }]).getLast? = some "bbbb" := rfl
    have hpb : "bbbb" = p := Option.some.inj (hlast.symm.trans hp)
    rw [← hpb] at h2
    rcases h2 with h2 | h2 <;> exact absurd h2 (by decide)

/-- C8, amended: after `extractPrompt`, either nothing was dropped — and
then the total length of the message segments fits `maxPromptChars` or
there is at most one segment — or a non-empty proper suffix of the segments
is retained behind a prepended truncation sentinel, and that suffix's total
segment length fits `maxPromptChars` or the suffix is exactly the final
segment.  (The joined prompt itself may exceed `maxPromptChars` by the
`"\n\n"` separators and the sentinel line, which the budget does not
count.) -/
theorem Server.extractPrompt_truncation (parts : List String) (maxChars : Nat) :
    (Server.keptParts parts maxChars = parts ∧
      (((parts.map String.length).sum ≤ maxChars) ∨ parts.length ≤ 1)) ∨
    (∃ k, 0 < k ∧ k < parts.length ∧
      Server.keptParts parts maxChars =
        Server.TRUNCATION_SENTINEL :: parts.drop k ∧
      ((((parts.drop k).map String.length).sum ≤ maxChars) ∨
       (parts.drop k).length = 1)) := by
  unfold Server.keptParts
  rcases Server.keptAux_spec maxChars parts.reverse 0 [] rfl (Or.inl (Nat.zero_le _))
    with ⟨heq, hsz⟩ | ⟨j, hj, heq, hne, hsz⟩
  · left
    rw [heq]
    constructor
    · simp
    · simpa using hsz
  · right
    have hjlen : j < parts.length := by simpa using hj
    have hrev : (parts.reverse.take j).reverse = parts.drop (parts.length - j) := by
      rw [List.take_reverse, List.reverse_reverse]
    have hj0 : 0 < j := by
      rcases Nat.eq_zero_or_pos j with h0 | h0
      · subst h0
        simp at hne
      · exact h0
    rw [List.append_nil] at heq hne hsz
    rw [hrev] at heq hne hsz
    have hlen : (parts.drop (parts.length - j)).length = j := by
      rw [List.length_drop]
      omega
    refine ⟨parts.length - j, by omega, by omega, heq, ?_⟩
    rcases hsz with h | h
    · left
      exact h
    · right
      omega
